import Mathlib

/-!
Shallow embedding of the Portfolio-X-Ray aggregation core
(`src/portfolio_manager.py`, consumed by `src/dashboard.py`).

Modelling conventions:
* pandas float64 weights are modelled as exact rationals `ℚ`; a float
  division whose divisor is `0` (which in IEEE arithmetic yields a
  non-finite value, `NaN` for `0/0`) is modelled as `none : Option ℚ`.
* a missing cell (pandas `NaN` in an object column) is `none : Option String`;
  `astype(str)` turns it into the literal string `"nan"`, which `strCoerce`
  reproduces.
* the weight column is taken after the European-format numeric conversion of
  `parse_holdings` (lines 127-133: `str.replace` + `pd.to_numeric(...).fillna(0.0)`),
  which guarantees every weight cell is a finite number; that string-to-number
  step itself is upstream of everything the development needs.
* a `DataFrame` is a list of rows; the row order of every operation follows
  the code (`concat`/`filter` preserve order, `sort_values` sorts).
* resolution of a component's `url` (download + `clean_csv` + `pd.read_csv`,
  lines 179-192) is an injected function `resolve : String → Option (List RawRow)`;
  `none` models any exception caught by the `except` at line 198.
-/

namespace PortfolioXRay

/-- A row of the canonical holdings table (`required_cols` of
`CSVProcessor.parse_holdings`, line 121). -/
structure HoldingsRow where
  ticker : String
  name : String
  sector : String
  country : String
  asset_class : String
  weight : ℚ
deriving DecidableEq, Repr

/-- A raw row as it reaches the column-normalisation part of
`parse_holdings`: string cells may be missing (pandas `NaN`), the weight is
already numeric (see module comment). -/
structure RawRow where
  ticker : Option String
  name : Option String
  sector : Option String
  country : Option String
  asset_class : Option String
  weight : ℚ
deriving DecidableEq, Repr

/-- Python `str.strip()`: drop leading and trailing whitespace. -/
def stripStr (s : String) : String :=
  String.mk (((s.data.dropWhile Char.isWhitespace).reverse.dropWhile Char.isWhitespace).reverse)

/-- Python `str.lower()`: lower-case every character. -/
def lowerStr (s : String) : String :=
  String.mk (s.data.map Char.toLower)

/-- Python `str.upper()`: upper-case every character. -/
def upperStr (s : String) : String :=
  String.mk (s.data.map Char.toUpper)

/-- One cell under `astype(str)`: a missing value (`NaN`) prints as `"nan"`
(line 138). -/
def strCoerce : Option String → String
  | none => "nan"
  | some s => s

/-- Lines 136-138: every string column is coerced with `astype(str)` and
stripped (`.str.strip()`). -/
def coerceRow (r : RawRow) : HoldingsRow :=
  { ticker := stripStr (strCoerce r.ticker)
    name := stripStr (strCoerce r.name)
    sector := stripStr (strCoerce r.sector)
    country := stripStr (strCoerce r.country)
    asset_class := stripStr (strCoerce r.asset_class)
    weight := r.weight }

/-- Sum of the weight column, `df["weight"].sum()`. -/
def weightSum (l : List HoldingsRow) : ℚ :=
  (l.map (fun r => r.weight)).sum

/-- Line 141: `df = df[df["name"] != "nan"]` — rows surviving the drop. -/
def keptRows (raws : List RawRow) : List HoldingsRow :=
  (raws.map coerceRow).filter (fun r => r.name != "nan")

/-- Function `CSVProcessor.parse_holdings` from the string-normalisation step
on (lines 136-148): coerce the string cells, drop rows whose coerced name is
`"nan"`, then divide every weight by the total iff the total is `> 0`
(lines 143-146). -/
def parse_holdings (raws : List RawRow) : List HoldingsRow :=
  if 0 < weightSum (keptRows raws) then
    (keptRows raws).map (fun r => { r with weight := r.weight / weightSum (keptRows raws) })
  else keptRows raws

/-- One entry of the `portfolio_config` list; every field is optional exactly
as for a Python dict (`item.get`). -/
structure ComponentItem where
  weight : Option ℚ
  url : Option String
  name : Option String
  asset_class : Option String
deriving DecidableEq, Repr

/-- Line 169: `allocation_weight = item.get("weight", 0)`. -/
def allocWeight (item : ComponentItem) : ℚ :=
  item.weight.getD 0

/-- Lines 202-209: the single synthesised row of a manual asset. -/
def manualRow (item : ComponentItem) : HoldingsRow :=
  { ticker := upperStr (item.name.getD "UNKNOWN")
    name := item.name.getD "Unknown"
    sector := "Manual"
    country := "Manual"
    asset_class := item.asset_class.getD "Other"
    weight := allocWeight item }

/-- The body of the `for item in self.config` loop of
`PortfolioManager.fetch_and_process` (lines 168-210): on the ETF branch a
resolution/parse failure (caught at line 198) contributes nothing, a success
contributes the parsed table with weights scaled by the allocation (line 195);
otherwise the manual branch contributes its single row. -/
def processItem (resolve : String → Option (List RawRow)) (item : ComponentItem) :
    List HoldingsRow :=
  match item.url with
  | some u =>
    match resolve u with
    | some raws =>
        (parse_holdings raws).map (fun r => { r with weight := r.weight * allocWeight item })
    | none => []
  | none => [manualRow item]

/-- Method `PortfolioManager.fetch_and_process` (lines 157-215): concatenate every
component's contribution in component order (`pd.concat`, line 213); no
component at all gives the empty table (line 215). -/
def fetch_and_process (resolve : String → Option (List RawRow))
    (config : List ComponentItem) : List HoldingsRow :=
  (config.map (processItem resolve)).flatten

/-- Does `pat` occur as a contiguous run of `s`? (Python `pat in s`, and the
effect of the regex `contains` with a literal alternation.) -/
def substrAux (pat : List Char) : List Char → Bool
  | [] => pat.isPrefixOf []
  | a :: rest => pat.isPrefixOf (a :: rest) || substrAux pat rest

/-- Substring test on strings: `containsSub s pat` iff `pat` occurs in `s`. -/
def containsSub (s pat : String) : Bool :=
  substrAux pat.toList s.toList

/-- Line 227: `df["asset_class"].str.lower() == "azionario"`. -/
def isEquityClass (s : String) : Bool :=
  lowerStr s == "azionario"

/-- Line 233: `df["asset_class"].str.lower().str.contains("obbligazionario|bond")` —
the regex is an alternation of two literals, i.e. a two-substring test. -/
def isBondClass (s : String) : Bool :=
  containsSub (lowerStr s) "obbligazionario" || containsSub (lowerStr s) "bond"

/-- The equities subset of the ledger (line 227). -/
def equitiesOf (ledger : List HoldingsRow) : List HoldingsRow :=
  ledger.filter (fun r => isEquityClass r.asset_class)

/-- The bonds subset of the ledger (line 233). -/
def bondsOf (ledger : List HoldingsRow) : List HoldingsRow :=
  ledger.filter (fun r => isBondClass r.asset_class)

/-- A ledger row carrying the extra `weight_norm` column; `none` stands for a
non-finite float (the `NaN` produced by `0.0/0.0`). -/
structure NormRow extends HoldingsRow where
  weight_norm : Option ℚ
deriving DecidableEq, Repr

/-- Float division as used for `weight_norm`: a zero divisor yields a
non-finite value, modelled as `none`. -/
def fdiv (a b : ℚ) : Option ℚ :=
  if b = 0 then none else some (a / b)

/-- Lines 228-231 (and 234-237 for bonds): on a non-empty subset set
`weight_norm = weight / subset_total`; on an empty subset the assignment
`subset["weight_norm"] = 0` adds a column to a table with no rows. -/
def addWeightNorm (subset : List HoldingsRow) : List NormRow :=
  if subset.isEmpty then []
  else subset.map (fun r => { toHoldingsRow := r, weight_norm := fdiv r.weight (weightSum subset) })

/-- Group keys in order of first appearance. -/
def keysOf {κ : Type} [DecidableEq κ] (ks : List κ) : List κ :=
  ks.foldl (fun acc k => if k ∈ acc then acc else acc ++ [k]) []

/-- Grouped sum `groupby(key)["weight"].sum()`: one `(key, summed weight)`
pair per group. -/
def groupSum {κ : Type} [DecidableEq κ] (key : HoldingsRow → κ)
    (l : List HoldingsRow) : List (κ × ℚ) :=
  (keysOf (l.map key)).map
    (fun k => (k, weightSum (l.filter (fun r => decide (key r = k)))))

/-- Grouped sum `groupby(key)["weight_norm"].sum()`: pandas sums skipping
`NaN` (a group of only `NaN`s sums to `0.0`), so the `none` entries are
dropped. -/
def groupSumNorm {κ : Type} [DecidableEq κ] (key : NormRow → κ)
    (l : List NormRow) : List (κ × ℚ) :=
  (keysOf (l.map key)).map
    (fun k =>
      (k, ((l.filter (fun r => decide (key r = k))).filterMap
            (fun r => r.weight_norm)).sum))

/-- The Boolean order used to sort a table descending on `f`. -/
def descBy {α : Type} (f : α → ℚ) (a b : α) : Bool :=
  decide (f b ≤ f a)

/-- Descending sort, `sort_values(col, ascending=False)`. -/
def sortDesc {α : Type} (f : α → ℚ) (l : List α) : List α :=
  l.mergeSort (descBy f)

/-- The inner helper `group_sort` of `get_aggregated_views` (lines 224-225). -/
def group_sort {κ : Type} [DecidableEq κ] (key : HoldingsRow → κ)
    (l : List HoldingsRow) : List (κ × ℚ) :=
  sortDesc Prod.snd (groupSum key l)

/-- Group a subset on `key`, summing `weight_norm`, sorted descending
(lines 245-251). -/
def groupSortNorm {κ : Type} [DecidableEq κ] (key : NormRow → κ)
    (l : List NormRow) : List (κ × ℚ) :=
  sortDesc Prod.snd (groupSumNorm key l)

/-- The nine views returned by `get_aggregated_views` (lines 239-254). -/
structure Views where
  global_by_asset : List (String × ℚ)
  global_by_country : List (String × ℚ)
  global_by_sector : List (String × ℚ)
  equity_by_stock : List ((String × String) × ℚ)
  equity_by_sector : List (String × ℚ)
  equity_by_country : List (String × ℚ)
  bond_by_type : List (String × ℚ)
  bond_by_country : List (String × ℚ)
  all_holdings : List HoldingsRow
deriving DecidableEq, Repr

/-- The view construction of `get_aggregated_views` on a non-empty ledger
(lines 222-254). -/
def buildViews (ledger : List HoldingsRow) : Views :=
  let equities := addWeightNorm (equitiesOf ledger)
  let bonds := addWeightNorm (bondsOf ledger)
  { global_by_asset := group_sort (fun r => r.asset_class) ledger
    global_by_country := group_sort (fun r => r.country) ledger
    global_by_sector := group_sort (fun r => r.sector) ledger
    equity_by_stock := groupSortNorm (fun r => (r.ticker, r.name)) equities
    equity_by_sector := groupSortNorm (fun r => r.sector) equities
    equity_by_country := groupSortNorm (fun r => r.country) equities
    bond_by_type := groupSortNorm (fun r => r.sector) bonds
    bond_by_country := groupSortNorm (fun r => r.country) bonds
    all_holdings := sortDesc (fun r => r.weight) ledger }

/-- Method `PortfolioManager.get_aggregated_views` (lines 217-254): the empty ledger
returns the empty mapping `{}` (line 220), modelled as `none`; otherwise the
full view mapping. -/
def get_aggregated_views (ledger : List HoldingsRow) : Option Views :=
  if ledger.isEmpty then none else some (buildViews ledger)

/-- Function `run_analysis` of `src/dashboard.py` (lines 80-91), the
`aggregate_and_build_views` entry point: run `fetch_and_process` then
`get_aggregated_views` and return `(views, None)`.  The `except` branch
(`(None, str(e))`) only fires on faults outside the pure data flow (I/O,
directory creation), which the embedding has no counterpart of, so the error
slot is always `none` here; the empty views mapping is the `none` of the
first component. -/
def run_analysis (resolve : String → Option (List RawRow))
    (config : List ComponentItem) : Option Views × Option String :=
  (get_aggregated_views (fetch_and_process resolve config), none)

/-- Contribution factor of one component to the total ledger weight: the
internal normalized-weight sum of its source table (a failed resolution
contributes nothing, a manual component's single row has internal weight
`1.0` before allocation scaling). -/
def srcNormSum (resolve : String → Option (List RawRow)) (item : ComponentItem) : ℚ :=
  match item.url with
  | some u =>
    match resolve u with
    | some raws => weightSum (parse_holdings raws)
    | none => 0
  | none => 1

/-- Sortedness in the claims' sense: every pair of adjacent rows is
non-increasing on the weight column `f`. -/
def SortedDescBy {α : Type} (f : α → ℚ) (l : List α) : Prop :=
  List.Chain' (fun a b => f b ≤ f a) l

/-! Concrete sample data used to instantiate the theorems. -/

/-- Sample raw row: an equity holding with raw weight 6. -/
def rawApple : RawRow := ⟨some "AAPL", some "Apple", some "Tech", some "US", some "Azionario", 6⟩

/-- Sample raw row: an equity holding with raw weight 2. -/
def rawMsft : RawRow := ⟨some "MSFT", some "Msft", some "Tech", some "US", some "Azionario", 2⟩

/-- Sample raw row whose name cell is a whitespace-only string. -/
def rawBlankName : RawRow := ⟨some "T", some " ", some "S", some "C", some "Azionario", 1⟩

/-- Sample raw table behind the sample resolver. -/
def rawsEx : List RawRow := [rawApple, rawMsft]

/-- Sample resolver: URL `"X"` resolves to `rawsEx`, everything else fails. -/
def resolveEx : String → Option (List RawRow) :=
  fun u => if u = "X" then some rawsEx else none

/-- Resolver for which every URL fails. -/
def resolveNone : String → Option (List RawRow) :=
  fun _ => none

/-- Sample ETF component with allocation 4/5 backed by URL `"X"`. -/
def itemEtf : ComponentItem := ⟨some (4/5), some "X", none, none⟩

/-- Sample manual component (cash) with allocation 1/5. -/
def itemCash : ComponentItem := ⟨some (1/5), none, some "Cash", some "Liquidità"⟩

/-- Malformed component: neither a url nor a name. -/
def itemBare : ComponentItem := ⟨some (1/2), none, none, none⟩

/-- Component whose URL cannot be resolved. -/
def itemFail : ComponentItem := ⟨some 1, some "Y", none, none⟩

/-- Sample component list. -/
def configEx : List ComponentItem := [itemCash, itemEtf]

/-- Sample ledger: the aggregation of `configEx` through `resolveEx`. -/
def ledgerEx : List HoldingsRow := fetch_and_process resolveEx configEx

/-- Equity row with weight zero (a degenerate all-zero equity subset). -/
def zeroEqRow : HoldingsRow := ⟨"T", "ZeroCo", "S", "C", "Azionario", 0⟩

/-- Equity row with weight 1/2. -/
def eqRow : HoldingsRow := ⟨"AAPL", "Apple", "Tech", "US", "Azionario", 1/2⟩

/-- Bond row with weight 1/4. -/
def bondRow : HoldingsRow := ⟨"GOVT", "Gov Bond", "Treasury", "US", "Obbligazionario Governativo", 1/4⟩

/-! Helper lemmas. -/

theorem weightSum_nil : weightSum [] = 0 := rfl

theorem weightSum_cons (r : HoldingsRow) (l : List HoldingsRow) :
    weightSum (r :: l) = r.weight + weightSum l := by
  simp [weightSum]

theorem weightSum_append (a b : List HoldingsRow) :
    weightSum (a ++ b) = weightSum a + weightSum b := by
  simp [weightSum]

theorem weightSum_map_div (l : List HoldingsRow) (t : ℚ) :
    weightSum (l.map (fun r => { r with weight := r.weight / t })) = weightSum l / t := by
  induction l with
  | nil => simp [weightSum]
  | cons r l ih =>
    simp only [List.map_cons, weightSum_cons] at *
    rw [ih, add_div]

theorem weightSum_map_mul (l : List HoldingsRow) (a : ℚ) :
    weightSum (l.map (fun r => { r with weight := r.weight * a })) = weightSum l * a := by
  induction l with
  | nil => simp [weightSum]
  | cons r l ih =>
    simp only [List.map_cons, weightSum_cons] at *
    rw [ih, add_mul]

theorem weightSum_all_zero (l : List HoldingsRow) (h0 : weightSum l = 0)
    (hn : ∀ r ∈ l, 0 ≤ r.weight) : ∀ r ∈ l, r.weight = 0 := by
  induction l with
  | nil => simp
  | cons a l ih =>
    rw [weightSum_cons] at h0
    have ha : 0 ≤ a.weight := hn a (by simp)
    have hl : 0 ≤ weightSum l :=
      List.sum_nonneg (by
        intro x hx
        obtain ⟨r, hr, rfl⟩ := List.mem_map.mp hx
        exact hn r (by simp [hr]))
    have ha0 : a.weight = 0 := by linarith
    have hl0 : weightSum l = 0 := by linarith
    intro r hr
    rcases List.mem_cons.mp hr with h | h
    · rw [h, ha0]
    · exact ih hl0 (fun r' hr' => hn r' (by simp [hr'])) r h

theorem sum_div_weights (l : List HoldingsRow) (t : ℚ) :
    (l.map (fun r => r.weight / t)).sum = weightSum l / t := by
  induction l with
  | nil => simp [weightSum]
  | cons r l ih => simp [weightSum_cons, ih, add_div]

theorem sortDesc_sorted {α : Type} (f : α → ℚ) (l : List α) :
    SortedDescBy f (sortDesc f l) := by
  have tr : ∀ (a b c : α), descBy f a b → descBy f b c → descBy f a c := by
    intro a b c hab hbc
    simp only [descBy, decide_eq_true_eq] at *
    exact le_trans hbc hab
  have tot : ∀ (a b : α), descBy f a b || descBy f b a := by
    intro a b
    simp only [descBy, Bool.or_eq_true, decide_eq_true_eq]
    exact le_total (f b) (f a)
  exact (List.Pairwise.chain' (List.sorted_mergeSort tr tot l)).imp
    (fun a b hab => by simpa [descBy] using hab)

theorem parse_total_pos (raws : List RawRow) (h : 0 < weightSum (keptRows raws)) :
    parse_holdings raws
      = (keptRows raws).map
          (fun r => { r with weight := r.weight / weightSum (keptRows raws) })
    ∧ weightSum (parse_holdings raws) = 1 := by
  constructor
  · simp [parse_holdings, if_pos h]
  · rw [parse_holdings, if_pos h, weightSum_map_div, div_self (ne_of_gt h)]

theorem parse_total_nonpos (raws : List RawRow) (h : ¬ 0 < weightSum (keptRows raws)) :
    parse_holdings raws = keptRows raws := by
  simp [parse_holdings, if_neg h]

theorem filterMap_norm_map (l : List HoldingsRow) (g : HoldingsRow → ℚ) :
    (l.map (fun r => ({ toHoldingsRow := r, weight_norm := some (g r) } : NormRow))).filterMap
      (fun r => r.weight_norm) = l.map g := by
  induction l with
  | nil => rfl
  | cons a l ih => simp [List.filterMap_cons, ih]

theorem names_filter (l : List HoldingsRow) :
    (l.filter (fun r => r.name != "nan")).map (fun r => r.name)
      = (l.map (fun r => r.name)).filter (fun s => s != "nan") := by
  induction l with
  | nil => rfl
  | cons a l ih =>
    by_cases h : a.name = "nan" <;> simp [List.filter_cons, h, ih]

/-! Theorems for the claims. -/

/-- C2: the normalizer's final step divides every row's weight by the table's
weight sum exactly when that sum is strictly positive, making the normalized
weights sum to 1; when the sum is not positive the weights are left unchanged
(in particular, a zero sum over nonnegative weights means every weight is
already 0), and normalization is a total function (never raises). -/
theorem C2_parse_renormalizes (raws : List RawRow) :
    (0 < weightSum (keptRows raws) →
      parse_holdings raws
        = (keptRows raws).map
            (fun r => { r with weight := r.weight / weightSum (keptRows raws) })
      ∧ weightSum (parse_holdings raws) = 1)
    ∧ (¬ 0 < weightSum (keptRows raws) → parse_holdings raws = keptRows raws)
    ∧ (weightSum (keptRows raws) = 0 → (∀ r ∈ keptRows raws, 0 ≤ r.weight) →
        ∀ r ∈ parse_holdings raws, r.weight = 0) := by
  refine ⟨fun h => parse_total_pos raws h, fun h => parse_total_nonpos raws h, fun h0 hn => ?_⟩
  have h' : ¬ 0 < weightSum (keptRows raws) := by rw [h0]; exact lt_irrefl 0
  rw [parse_total_nonpos raws h']
  exact weightSum_all_zero _ h0 hn

/-- Witness for C2 at a concrete two-row table with positive raw total. -/
theorem C2_parse_renormalizes_witness :
    0 < weightSum (keptRows rawsEx) ∧ weightSum (parse_holdings rawsEx) = 1 :=
  ⟨by with_unfolding_all decide,
   ((C2_parse_renormalizes rawsEx).1 (by with_unfolding_all decide)).2⟩

/-- C7 counterexample: a row whose name cell is the whitespace string `" "`
has an empty name after string coercion and stripping, yet `parse_holdings`
keeps it — the drop test compares against the literal `"nan"`, not against
emptiness. -/
theorem C7_empty_name_kept :
    (parse_holdings [rawBlankName]).map (fun r => r.name) = [""]
    ∧ stripStr (strCoerce rawBlankName.name) = "" := by
  constructor
  · with_unfolding_all decide
  · with_unfolding_all decide

/-- C7 (amended): the drop step removes exactly the rows whose name, after
`astype(str)` coercion and stripping, equals the literal string `"nan"` (the
printed form of a missing cell); every other row is kept, including rows whose
name is empty or whitespace-only, while a row literally named `"nan"` is also
dropped. Stated on the name column: the output names are the coerced input
names with the `"nan"` entries removed. -/
theorem C7_drop_is_nan_test (raws : List RawRow) :
    (parse_holdings raws).map (fun r => r.name)
      = ((raws.map coerceRow).map (fun r => r.name)).filter (fun s => s != "nan") := by
  have hkept : (keptRows raws).map (fun r => r.name)
      = ((raws.map coerceRow).map (fun r => r.name)).filter (fun s => s != "nan") := by
    rw [keptRows, names_filter]
  rw [parse_holdings]
  split
  · rw [List.map_map]
    exact hkept
  · exact hkept

/-- C9: a manual component (name and asset_class present, no url) contributes
exactly one ledger row: upper-cased name as ticker, `"Manual"` sector and
country, the component's asset class, and weight `1.0 ×` the allocation. -/
theorem C9_manual_component_row (resolve : String → Option (List RawRow))
    (item : ComponentItem) (n ac : String)
    (hu : item.url = none) (hn : item.name = some n) (ha : item.asset_class = some ac) :
    processItem resolve item
      = [{ ticker := upperStr n
           name := n
           sector := "Manual"
           country := "Manual"
           asset_class := ac
           weight := 1 * allocWeight item }] := by
  simp [processItem, hu, manualRow, hn, ha]

/-- Witness for C9 at the concrete manual cash component. -/
theorem C9_manual_component_row_witness :
    processItem resolveEx itemCash
      = [{ ticker := upperStr "Cash"
           name := "Cash"
           sector := "Manual"
           country := "Manual"
           asset_class := "Liquidità"
           weight := 1 * allocWeight itemCash }] :=
  C9_manual_component_row resolveEx itemCash "Cash" "Liquidità" rfl rfl rfl

/-- C5: a ledger row lands in the equities subset iff its asset class
lower-cases exactly to `"azionario"`, and in the bonds subset iff its
lower-cased asset class contains `"obbligazionario"` or `"bond"` as a
substring; in particular `"Obbligazionario Governativo"` and
`"Corporate Bond"` classify as bonds while `"Azionario"` does not (but is an
equity class). -/
theorem C5_classification (ledger : List HoldingsRow) (r : HoldingsRow) :
    (r ∈ equitiesOf ledger ↔ r ∈ ledger ∧ lowerStr r.asset_class = "azionario")
    ∧ (r ∈ bondsOf ledger ↔ r ∈ ledger ∧
        (containsSub (lowerStr r.asset_class) "obbligazionario" = true
          ∨ containsSub (lowerStr r.asset_class) "bond" = true))
    ∧ isBondClass "Obbligazionario Governativo" = true
    ∧ isBondClass "Corporate Bond" = true
    ∧ isBondClass "Azionario" = false
    ∧ isEquityClass "Azionario" = true := by
  refine ⟨?_, ?_, by decide, by decide, by decide, by decide⟩
  · simp [equitiesOf, List.mem_filter, isEquityClass]
  · simp [bondsOf, List.mem_filter, isBondClass]

/-- C10: the equities subset and the bonds subset are disjoint: a string that
lower-cases exactly to `"azionario"` contains neither `"obbligazionario"` nor
`"bond"`, so no ledger row is in both subsets. -/
theorem C10_subsets_disjoint (ledger : List HoldingsRow) (r : HoldingsRow)
    (h : r ∈ equitiesOf ledger) : r ∉ bondsOf ledger := by
  have he : isEquityClass r.asset_class = true := (List.mem_filter.mp h).2
  have hl : lowerStr r.asset_class = "azionario" := by
    simpa [isEquityClass] using he
  intro hb
  have hbc : isBondClass r.asset_class = true := (List.mem_filter.mp hb).2
  rw [isBondClass, hl] at hbc
  exact absurd hbc (by decide)

/-- Witness for C10: the concrete equity row is in the equities subset of a
one-row ledger and not in its bonds subset. -/
theorem C10_subsets_disjoint_witness :
    eqRow ∈ equitiesOf [eqRow] ∧ eqRow ∉ bondsOf [eqRow] :=
  ⟨by with_unfolding_all decide,
   C10_subsets_disjoint [eqRow] eqRow (by with_unfolding_all decide)⟩

/-- C8 counterexample: a component with neither `url` nor `name` does not
make aggregation fail — the code falls into the manual branch and fabricates
a contribution with fallback values (`"UNKNOWN"`/`"Unknown"`/`"Other"`), and
the entry point reports no error. -/
theorem C8_malformed_not_fatal :
    fetch_and_process resolveNone [itemBare]
      = [{ ticker := "UNKNOWN"
           name := "Unknown"
           sector := "Manual"
           country := "Manual"
           asset_class := "Other"
           weight := 1/2 }]
    ∧ (run_analysis resolveNone [itemBare]).2 = none := by
  constructor
  · with_unfolding_all decide
  · rfl

/-- C8 (amended): a component with neither `url` nor `name` is treated as a
manual asset with fallback field values and its allocation as weight; no
error propagates — the entry point still reports success. -/
theorem C8_malformed_fallback_row (resolve : String → Option (List RawRow))
    (item : ComponentItem) (hu : item.url = none) (hn : item.name = none) :
    processItem resolve item
      = [{ ticker := "UNKNOWN"
           name := "Unknown"
           sector := "Manual"
           country := "Manual"
           asset_class := item.asset_class.getD "Other"
           weight := allocWeight item }]
    ∧ (run_analysis resolve [item]).2 = none := by
  constructor
  · simp [processItem, hu, manualRow, hn, upperStr]
  · rfl

/-- Witness for C8's amended theorem at the concrete malformed component. -/
theorem C8_malformed_fallback_row_witness :
    processItem resolveNone itemBare
      = [{ ticker := "UNKNOWN"
           name := "Unknown"
           sector := "Manual"
           country := "Manual"
           asset_class := itemBare.asset_class.getD "Other"
           weight := allocWeight itemBare }]
    ∧ (run_analysis resolveNone [itemBare]).2 = none :=
  C8_malformed_fallback_row resolveNone itemBare rfl rfl

theorem weightSum_processItem (resolve : String → Option (List RawRow))
    (item : ComponentItem) :
    weightSum (processItem resolve item) = allocWeight item * srcNormSum resolve item := by
  cases hu : item.url with
  | none => simp [processItem, srcNormSum, hu, weightSum, manualRow]
  | some u =>
    cases hr : resolve u with
    | none => simp [processItem, srcNormSum, hu, hr, weightSum]
    | some raws =>
      simp only [processItem, srcNormSum, hu, hr]
      rw [weightSum_map_mul, mul_comm]

/-- C1: the total ledger weight is the sum over components of the allocation
weight times that component's internal normalized-weight sum — per-row
scaling by the allocation is exact and linear — and that internal sum is
`1` for a source whose weight total before renormalization was positive, `0`
for a zero-total source. -/
theorem C1_total_weight_linear (resolve : String → Option (List RawRow))
    (config : List ComponentItem) :
    weightSum (fetch_and_process resolve config)
      = (config.map (fun item => allocWeight item * srcNormSum resolve item)).sum
    ∧ ∀ raws : List RawRow,
        (0 < weightSum (keptRows raws) → weightSum (parse_holdings raws) = 1)
        ∧ (weightSum (keptRows raws) = 0 → weightSum (parse_holdings raws) = 0) := by
  constructor
  · induction config with
    | nil => rfl
    | cons item config ih =>
      rw [show fetch_and_process resolve (item :: config)
            = processItem resolve item ++ fetch_and_process resolve config from rfl,
        weightSum_append, List.map_cons, List.sum_cons, ih, weightSum_processItem]
  · intro raws
    constructor
    · intro h
      exact (parse_total_pos raws h).2
    · intro h0
      have h' : ¬ 0 < weightSum (keptRows raws) := by rw [h0]; exact lt_irrefl 0
      rw [parse_total_nonpos raws h', h0]

/-- Witness for C1 at the concrete resolver, component list and raw table. -/
theorem C1_total_weight_linear_witness :
    weightSum (fetch_and_process resolveEx configEx)
      = (configEx.map (fun item => allocWeight item * srcNormSum resolveEx item)).sum
    ∧ 0 < weightSum (keptRows rawsEx)
    ∧ weightSum (parse_holdings rawsEx) = 1 :=
  ⟨(C1_total_weight_linear resolveEx configEx).1,
   by with_unfolding_all decide,
   ((C1_total_weight_linear resolveEx configEx).2 rawsEx).1 (by with_unfolding_all decide)⟩

/-- C4: a component whose resolution fails is skipped without affecting the
others (the ledger is as if that component were absent); if every component
fails the ledger is empty; the empty ledger makes `get_aggregated_views`
return the empty mapping; and the entry point on an empty component list
returns `({}, None)` — success, not an error. -/
theorem C4_failure_policy :
    (∀ (resolve : String → Option (List RawRow)) (pre : List ComponentItem)
        (item : ComponentItem) (rest : List ComponentItem) (u : String),
        item.url = some u → resolve u = none →
        fetch_and_process resolve (pre ++ item :: rest)
          = fetch_and_process resolve (pre ++ rest))
    ∧ (∀ (resolve : String → Option (List RawRow)) (config : List ComponentItem),
        (∀ item ∈ config, ∃ u, item.url = some u ∧ resolve u = none) →
        fetch_and_process resolve config = [])
    ∧ get_aggregated_views [] = none
    ∧ ∀ resolve : String → Option (List RawRow), run_analysis resolve [] = (none, none) := by
  refine ⟨?_, ?_, rfl, fun _ => rfl⟩
  · intro resolve pre item rest u hu hr
    have hskip : processItem resolve item = [] := by
      simp [processItem, hu, hr]
    simp [fetch_and_process, hskip]
  · intro resolve config hall
    induction config with
    | nil => rfl
    | cons item config ih =>
      obtain ⟨u, hu, hr⟩ := hall item (by simp)
      have hskip : processItem resolve item = [] := by
        simp [processItem, hu, hr]
      have htail := ih (fun i hi => hall i (by simp [hi]))
      simp [fetch_and_process, hskip]
      simpa [fetch_and_process] using htail

/-- Witness for C4: a failing component between two valid ones is skipped,
a list of only failing components aggregates to the empty ledger, the empty
ledger yields the empty view mapping, and the entry point returns `({}, None)`
on the empty component list. -/
theorem C4_failure_policy_witness :
    fetch_and_process resolveEx ([itemCash] ++ itemFail :: [itemEtf])
      = fetch_and_process resolveEx ([itemCash] ++ [itemEtf])
    ∧ fetch_and_process resolveNone [itemFail] = []
    ∧ get_aggregated_views [] = none
    ∧ run_analysis resolveEx [] = (none, none) :=
  ⟨C4_failure_policy.1 resolveEx [itemCash] itemFail [itemEtf] "Y" rfl rfl,
   C4_failure_policy.2.1 resolveNone [itemFail]
     (by
       intro item hi
       rw [List.mem_singleton] at hi
       exact ⟨"Y", by rw [hi]; rfl, rfl⟩),
   C4_failure_policy.2.2.1,
   C4_failure_policy.2.2.2 resolveEx⟩

/-- C3 counterexample: a non-empty equity subset whose only row has weight 0
has subset total 0, and the code — which branches on emptiness, not on a
positive total — computes `weight_norm = 0/0`, a non-finite value (`none`,
modelling the float `NaN`), not `0`. -/
theorem C3_zero_total_not_zero_norm :
    equitiesOf [zeroEqRow] ≠ []
    ∧ weightSum (equitiesOf [zeroEqRow]) = 0
    ∧ addWeightNorm (equitiesOf [zeroEqRow])
        = [{ toHoldingsRow := zeroEqRow, weight_norm := none }] := by
  refine ⟨by with_unfolding_all decide, by with_unfolding_all decide,
    by with_unfolding_all decide⟩

/-- C3 (amended): the subset normalization branches on non-emptiness rather
than a positive total. When the subset total is positive every row gets
`weight_norm = weight / subset_total` and the column sums to 1; an empty
subset yields no rows; but a non-empty subset whose total is 0 gets a
non-finite `weight_norm` (the float `0/0`, modelled `none`) on every row,
not 0. -/
theorem C3_weight_norm (subset : List HoldingsRow) :
    (0 < weightSum subset →
      addWeightNorm subset
        = subset.map (fun r =>
            { toHoldingsRow := r, weight_norm := some (r.weight / weightSum subset) })
      ∧ ((addWeightNorm subset).filterMap (fun r => r.weight_norm)).sum = 1)
    ∧ (subset = [] → addWeightNorm subset = [])
    ∧ (subset ≠ [] → weightSum subset = 0 →
        ∀ r ∈ addWeightNorm subset, r.weight_norm = none) := by
  refine ⟨fun hpos => ?_, fun he => by simp [addWeightNorm, he], fun hne h0 => ?_⟩
  · have hne : subset ≠ [] := by
      intro he
      rw [he] at hpos
      simp [weightSum] at hpos
    have heq : addWeightNorm subset
        = subset.map (fun r =>
            { toHoldingsRow := r, weight_norm := some (r.weight / weightSum subset) }) := by
      rw [addWeightNorm, if_neg (by simpa [List.isEmpty_iff] using hne)]
      simp [fdiv, hpos.ne']
    refine ⟨heq, ?_⟩
    rw [heq, filterMap_norm_map, sum_div_weights, div_self hpos.ne']
  · rw [addWeightNorm, if_neg (by simpa [List.isEmpty_iff] using hne)]
    intro r hr
    obtain ⟨x, _, rfl⟩ := List.mem_map.mp hr
    simp [fdiv, h0]

/-- Witness for C3's amended theorem at a one-row equity subset of positive
total weight. -/
theorem C3_weight_norm_witness :
    0 < weightSum [eqRow]
    ∧ addWeightNorm [eqRow]
        = [eqRow].map (fun r =>
            { toHoldingsRow := r, weight_norm := some (r.weight / weightSum [eqRow]) })
    ∧ ((addWeightNorm [eqRow]).filterMap (fun r => r.weight_norm)).sum = 1 :=
  ⟨by with_unfolding_all decide,
   ((C3_weight_norm [eqRow]).1 (by with_unfolding_all decide)).1,
   ((C3_weight_norm [eqRow]).1 (by with_unfolding_all decide)).2⟩

/-- C6: on any non-empty ledger, every view of the returned mapping is sorted
descending on its weight column — summed `weight` for the three global views,
summed `weight_norm` for the equity and bond views, and the raw `weight` for
`all_holdings`: each pair of adjacent rows is non-increasing. -/
theorem C6_views_sorted (ledger : List HoldingsRow) (vs : Views)
    (h : get_aggregated_views ledger = some vs) :
    SortedDescBy Prod.snd vs.global_by_asset
    ∧ SortedDescBy Prod.snd vs.global_by_country
    ∧ SortedDescBy Prod.snd vs.global_by_sector
    ∧ SortedDescBy Prod.snd vs.equity_by_stock
    ∧ SortedDescBy Prod.snd vs.equity_by_sector
    ∧ SortedDescBy Prod.snd vs.equity_by_country
    ∧ SortedDescBy Prod.snd vs.bond_by_type
    ∧ SortedDescBy Prod.snd vs.bond_by_country
    ∧ SortedDescBy (fun r => r.weight) vs.all_holdings := by
  by_cases he : ledger.isEmpty
  · simp [get_aggregated_views, he] at h
  · simp only [get_aggregated_views, he, Bool.false_eq_true, if_false,
      Option.some.injEq] at h
    subst h
    exact ⟨sortDesc_sorted _ _, sortDesc_sorted _ _, sortDesc_sorted _ _,
      sortDesc_sorted _ _, sortDesc_sorted _ _, sortDesc_sorted _ _,
      sortDesc_sorted _ _, sortDesc_sorted _ _, sortDesc_sorted _ _⟩

/-- Witness for C6 at a concrete two-row ledger holding one equity and one
bond row. -/
theorem C6_views_sorted_witness :
    SortedDescBy Prod.snd (buildViews [eqRow, bondRow]).global_by_asset
    ∧ SortedDescBy Prod.snd (buildViews [eqRow, bondRow]).global_by_country
    ∧ SortedDescBy Prod.snd (buildViews [eqRow, bondRow]).global_by_sector
    ∧ SortedDescBy Prod.snd (buildViews [eqRow, bondRow]).equity_by_stock
    ∧ SortedDescBy Prod.snd (buildViews [eqRow, bondRow]).equity_by_sector
    ∧ SortedDescBy Prod.snd (buildViews [eqRow, bondRow]).equity_by_country
    ∧ SortedDescBy Prod.snd (buildViews [eqRow, bondRow]).bond_by_type
    ∧ SortedDescBy Prod.snd (buildViews [eqRow, bondRow]).bond_by_country
    ∧ SortedDescBy (fun r => r.weight) (buildViews [eqRow, bondRow]).all_holdings :=
  C6_views_sorted [eqRow, bondRow] (buildViews [eqRow, bondRow]) rfl

end PortfolioXRay
